import Mathlib

/-!
Shallow embedding of the pxar hardware-abstraction layer (`core/hal/hal.cc`).

The HAL sequences remote calls into an external `CTestboard` device object.
We model each embedded HAL routine as a pure function that returns the list
of device calls it issues (a trace of `TBCall` events) together with its
return value; device responses (buffer sizes, acquired words, calibration
read-backs) enter as explicit parameters.  Machine integers are modelled as
`Nat`/`Int` with explicit reductions modulo `2^8`, `2^16` or `2^32` where the
C++ types wrap; `double` arithmetic at the voltage/current boundary is
modelled exactly by `ℚ`.
-/

set_option linter.unusedVariables false

namespace Pxar

/-- Remote calls issued by the HAL to the `CTestboard` device object, recorded
as observable events.  Only the calls exercised by the embedded routines are
modelled. -/
inductive TBCall where
  | Pg_SetCmd (addr : Nat) (cmd : Nat)
  | roc_I2cAddr (rocid : Nat)
  | roc_SetDAC (dacId : Nat) (dacValue : Nat)
  | mod_Addr (addr : Nat)
  | tbm_Set (regId : Nat) (regValue : Nat)
  | roc_Col_Enable (col : Nat) (enable : Bool)
  | roc_Chip_Mask
  | TrimChip (trim : List Int)
  | Daq_GetSize (channel : Nat)
  | Daq_Read (channel : Nat) (blocksize : Nat)
  | Flush
  deriving DecidableEq

/-- Modelled from the spec: `constants.h` is not part of the excerpt.  Number
of pixel rows of a ROC; the in-excerpt dummy routines iterate `row < 80` over
"the full roc". -/
def ROC_NUMROWS : Nat := 80

/-- Modelled from the spec: `constants.h` is not part of the excerpt.  Number
of pixel columns of a ROC; the in-excerpt dummy routines iterate
`column < 52` over "the full roc". -/
def ROC_NUMCOLS : Nat := 52

/-- Modelled from the spec: `constants.h` is not part of the excerpt.  The
internal efficiency flag is a fixed single bit of the 32-bit flag word; the
embedded routines only ever test this bit, so its exact position is
immaterial to the claims. -/
def FLAG_INTERNAL_GET_EFFICIENCY : Nat := 2048

/-- Two's-complement 32-bit bit pattern of a C `int32_t`, as a natural
number (`Int.emod` is non-negative for a positive modulus). -/
def int32Bits (x : Int) : Nat := (x % 4294967296).toNat

/-- The test `flags & FLAG_INTERNAL_GET_EFFICIENCY` performed by the
calibration routines on their `int32_t` flag word. -/
def hasEffFlag (flags : Int) : Bool :=
  (int32Bits flags &&& FLAG_INTERNAL_GET_EFFICIENCY) != 0

/-- Value of a C `char` (signed on the reference platform) holding byte `b`,
after integer promotion. -/
def charVal (b : Nat) : Int := if b < 128 then (b : Int) else (b : Int) - 256

/-- One iteration of the loop of `hal::GetHashForString`:
`h = (h * 54059) ^ (s[0] * 76963)`.  The `uint32_t` product wraps modulo
`2^32` and the signed factor is converted to `uint32_t` two's complement
before the XOR. -/
def hashStep (h : Nat) (b : Nat) : Nat :=
  (h * 54059 % 4294967296) ^^^ ((charVal b * 76963) % 4294967296).toNat

/-- `hal::GetHashForString` on the bytes of a NUL-terminated string (the list
holds the bytes before the terminator). -/
def GetHashForString (s : List Nat) : Nat := (s.foldl hashStep 31) % 86969

/-- Loop of `hal::GetHashForStringVector`: `ret += (i+1) * hash(v[i])` where
`ret` is a `uint32_t` accumulator, so each addition wraps modulo `2^32`. -/
def hashVecLoop : Nat → List (List Nat) → Nat → Nat
  | _, [], ret => ret
  | i, s :: rest, ret => hashVecLoop (i + 1) rest ((ret + (i + 1) * GetHashForString s) % 4294967296)

/-- `hal::GetHashForStringVector`. -/
def GetHashForStringVector (v : List (List Nat)) : Nat := hashVecLoop 0 v 0

/-- Loop of `hal::SetupPatternGenerator`: `addr` is a `uint8_t` counter
(so the post-increment wraps modulo `2^8`) and `cmd = pattern | delay` is
assigned to a `uint16_t` (reduction modulo `2^16`). -/
def pgLoop (addr : Nat) : List (Nat × Nat) → List TBCall
  | [] => []
  | (pat, del) :: rest =>
    .Pg_SetCmd addr ((pat ||| del) % 65536) :: pgLoop ((addr + 1) % 256) rest

/-- `hal::SetupPatternGenerator`: writes the pattern-generator entries to the
device starting at address 0. -/
def SetupPatternGenerator (pg_setup : List (Nat × Nat)) : List TBCall :=
  pgLoop 0 pg_setup

/-- `hal::rocSetDAC`: selects the ROC via its I2C address, sets the DAC, and
returns `true`. -/
def rocSetDAC (rocId : Nat) (dacId : Nat) (dacValue : Nat) : List TBCall × Bool :=
  ([.roc_I2cAddr rocId, .roc_SetDAC dacId dacValue], true)

/-- Loop of `hal::rocSetDACs`: iterates over the id/value pairs and aborts
returning `false` as soon as one `rocSetDAC` call reports failure. -/
def rocSetDACsLoop (rocId : Nat) : List (Nat × Nat) → List TBCall × Bool
  | [] => ([], true)
  | (k, v) :: rest =>
    let r := rocSetDAC rocId k v
    if r.2 then
      let r2 := rocSetDACsLoop rocId rest
      (r.1 ++ r2.1, r2.2)
    else (r.1, false)

/-- `hal::rocSetDACs`: runs the loop over the DAC pairs (a `std::map`
iterated in ascending key order, represented here by a key-sorted list) and
flushes the queued commands on success. -/
def rocSetDACs (rocId : Nat) (dacPairs : List (Nat × Nat)) : List TBCall × Bool :=
  let r := rocSetDACsLoop rocId dacPairs
  if r.2 then (r.1 ++ [.Flush], true) else (r.1, false)

/-- `hal::tbmSetReg`: sets the module address (fixed 31), programs the
register for both TBM cores via `tbm_Set`, and returns `true`. -/
def tbmSetReg (tbmId : Nat) (regId : Nat) (regValue : Nat) : List TBCall × Bool :=
  ([.mod_Addr 31, .tbm_Set regId regValue], true)

/-- Loop of `hal::tbmSetRegs`: iterates over the register pairs and aborts
returning `false` as soon as one `tbmSetReg` call reports failure. -/
def tbmSetRegsLoop (tbmId : Nat) : List (Nat × Nat) → List TBCall × Bool
  | [] => ([], true)
  | (k, v) :: rest =>
    let r := tbmSetReg tbmId k v
    if r.2 then
      let r2 := tbmSetRegsLoop tbmId rest
      (r.1 ++ r2.1, r2.2)
    else (r.1, false)

/-- `hal::tbmSetRegs`: runs the loop over the register pairs and flushes the
queued commands on success. -/
def tbmSetRegs (tbmId : Nat) (regPairs : List (Nat × Nat)) : List TBCall × Bool :=
  let r := tbmSetRegsLoop tbmId regPairs
  if r.2 then (r.1 ++ [.Flush], true) else (r.1, false)

/-- Pixel configuration record (`pixelConfig`): column, row and trim value of
one pixel. -/
structure pixelConfig where
  column : Nat
  row : Nat
  trim : Nat
  deriving DecidableEq

/-- Linearized position `column * ROC_NUMROWS + row` used by
`hal::RocSetMask` to index the trim vector. -/
def trimIdx (px : pixelConfig) : Nat := px.column * ROC_NUMROWS + px.row

/-- The update loop of `hal::RocSetMask`: each listed pixel overwrites the
trim entry at its linearized position. -/
def setTrims (t : List Int) (pixels : List pixelConfig) : List Int :=
  pixels.foldl (fun acc px => acc.set (trimIdx px) (px.trim : Int)) t

/-- Trim vector built by `hal::RocSetMask` in the unmask branch: every entry
defaults to 15, then each listed pixel overwrites its own position. -/
def buildTrimVector (pixels : List pixelConfig) : List Int :=
  setTrims (List.replicate (ROC_NUMCOLS * ROC_NUMROWS) 15) pixels

/-- `hal::RocSetMask`: masking issues `roc_Chip_Mask`; unmasking enables all
columns and trims the whole ROC with the linearized trim vector. -/
def RocSetMask (rocid : Nat) (mask : Bool) (pixels : List pixelConfig) : List TBCall :=
  if mask then [.roc_I2cAddr rocid, .roc_Chip_Mask]
  else
    .roc_I2cAddr rocid ::
      ((List.range ROC_NUMCOLS).map (fun col => .roc_Col_Enable col true) ++
        [.TrimChip (buildTrimVector pixels)])

/-- Pixel sample record (`pixel`) as filled in field-by-field by the
calibration routines: column, row, owning ROC id, and the integer value. -/
structure pixel where
  column : Nat
  row : Nat
  roc_id : Nat
  value : Int
  deriving DecidableEq

/-- `hal::PixelCalibrateMap`: reads `parameter.at(0)` and `parameter.at(1)`
(`none` models the `std::out_of_range` throw when the list is too short),
then builds one inner vector holding one pixel for the addressed position
whose value is the device-reported `nReadouts` count when the efficiency
flag is set and the device-reported `PHsum` otherwise. -/
def PixelCalibrateMap (rocid : Nat) (column : Nat) (row : Nat) (parameter : List Int)
    (nReadouts : Int) (PHsum : Int) : Option (List (List pixel)) :=
  match parameter with
  | flags :: _nTriggers :: _ =>
    let newpixel : pixel :=
      { column := column, row := row, roc_id := rocid,
        value := if hasEffFlag flags then nReadouts else PHsum }
    some ([] ++ [[] ++ [newpixel]])
  | _ => none

/-- `hal::RocCalibrateMap`: reads `parameter.at(0)` and `parameter.at(1)`
(`none` models the throw), then checks the three device-returned vectors for
equal size; on mismatch the freshly allocated empty result is returned, else
one inner vector is built with one pixel per address entry.  The external
`pixel(uint32_t address, int32_t value)` constructor is not part of the
excerpt; each constructed pixel is modelled as the pair of its raw device
address and its value. -/
def RocCalibrateMap (rocid : Nat) (parameter : List Int)
    (nReadouts : List Int) (PHsum : List Int) (address : List Nat) :
    Option (List (List (Nat × Int))) :=
  match parameter with
  | flags :: _nTriggers :: _ =>
    if address.length != nReadouts.length || address.length != PHsum.length ||
        nReadouts.length != PHsum.length then
      some []
    else
      some [address.zip (if hasEffFlag flags then nReadouts else PHsum)]
  | _ => none

/-- C++ conversion `uint16_t(x)` of a non-negative in-range `double`, with
the real arithmetic modelled exactly on `ℚ`: truncation of the fractional
part, reduced modulo `2^16` (the claims only exercise the conversion inside
its defined range). -/
def truncUInt16 (q : ℚ) : Nat := (⌊q⌋).toNat % 65536

/-- `hal::setTBva`: the value sent to the device by `_SetVA(uint16_t(VA*1000))`. -/
def setTBva (VA : ℚ) : Nat := truncUInt16 (VA * 1000)

/-- `hal::setTBvd`: the value sent to the device by `_SetVD(uint16_t(VD*1000))`. -/
def setTBvd (VD : ℚ) : Nat := truncUInt16 (VD * 1000)

/-- `hal::setTBia`: the value sent to the device by `_SetIA(uint16_t(IA*10000))`. -/
def setTBia (IA : ℚ) : Nat := truncUInt16 (IA * 10000)

/-- `hal::setTBid`: the value sent to the device by `_SetID(uint16_t(ID*10000))`. -/
def setTBid (ID : ℚ) : Nat := truncUInt16 (ID * 10000)

/-- `hal::getTBva`: the device-reported `_GetVA()` value divided by 1000.0. -/
def getTBva (devVA : Nat) : ℚ := (devVA : ℚ) / 1000

/-- `hal::getTBvd`: the device-reported `_GetVD()` value divided by 1000.0. -/
def getTBvd (devVD : Nat) : ℚ := (devVD : ℚ) / 1000

/-- `hal::getTBia`: the device-reported `_GetIA()` value divided by 10000.0. -/
def getTBia (devIA : Nat) : ℚ := (devIA : ℚ) / 10000

/-- `hal::getTBid`: the device-reported `_GetID()` value divided by 10000.0. -/
def getTBid (devID : Nat) : ℚ := (devID : ℚ) / 10000

/-- Device-side responses to the DAQ read-out calls: the reported buffer size
per channel, and the words handed back for a read request of a given size on
a given channel. -/
structure DaqDevice where
  Daq_GetSize : Nat → Nat
  Daq_Read : Nat → Nat → List Nat

/-- `hal::daqRead`: queries the channel 0 buffer size (and channel 1 when
`nTBMs > 0`), reads that many words from channel 0, and appends the channel 1
words after them when `nTBMs > 0`.  Returns the trace of device calls and the
ferried-back data. -/
def daqRead (tb : DaqDevice) (nTBMs : Nat) : List TBCall × List Nat :=
  let buffersize_ch0 := tb.Daq_GetSize 0
  if nTBMs > 0 then
    let buffersize_ch1 := tb.Daq_GetSize 1
    let data := tb.Daq_Read 0 buffersize_ch0
    let data1 := tb.Daq_Read 1 buffersize_ch1
    ([.Daq_GetSize 0, .Daq_GetSize 1, .Daq_Read 0 buffersize_ch0,
        .Daq_Read 1 buffersize_ch1],
      data ++ data1)
  else
    let data := tb.Daq_Read 0 buffersize_ch0
    ([.Daq_GetSize 0, .Daq_Read 0 buffersize_ch0], data)

/-! ### Helper lemmas -/

theorem pgLoop_length (addr : Nat) (pg : List (Nat × Nat)) :
    (pgLoop addr pg).length = pg.length := by
  induction pg generalizing addr with
  | nil => rfl
  | cons p rest ih =>
    cases p
    simp [pgLoop, ih]

theorem pgLoop_getElem? (pg : List (Nat × Nat)) :
    ∀ (addr k pat del : Nat), addr < 256 → pg[k]? = some (pat, del) →
      (pgLoop addr pg)[k]? =
        some (.Pg_SetCmd ((addr + k) % 256) ((pat ||| del) % 65536)) := by
  induction pg with
  | nil =>
    intro addr k pat del ha h
    simp at h
  | cons p rest ih =>
    intro addr k pat del ha h
    obtain ⟨p1, p2⟩ := p
    cases k with
    | zero =>
      rw [List.getElem?_cons_zero] at h
      obtain ⟨h1, h2⟩ := Prod.mk.injEq .. ▸ Option.some.inj h
      subst h1; subst h2
      simp [pgLoop, Nat.mod_eq_of_lt ha]
    | succ k =>
      rw [List.getElem?_cons_succ] at h
      have h2 := ih ((addr + 1) % 256) k pat del (Nat.mod_lt _ (by norm_num)) h
      simp only [pgLoop, List.getElem?_cons_succ, h2, Option.some.injEq,
        TBCall.Pg_SetCmd.injEq]
      exact ⟨by omega, trivial⟩

theorem rocSetDACsLoop_spec (rocId : Nat) (dacPairs : List (Nat × Nat)) :
    rocSetDACsLoop rocId dacPairs =
      (dacPairs.flatMap (fun p => [.roc_I2cAddr rocId, .roc_SetDAC p.1 p.2]), true) := by
  induction dacPairs with
  | nil => rfl
  | cons p rest ih =>
    cases p
    simp [rocSetDACsLoop, rocSetDAC, ih]

theorem tbmSetRegsLoop_spec (tbmId : Nat) (regPairs : List (Nat × Nat)) :
    tbmSetRegsLoop tbmId regPairs =
      (regPairs.flatMap (fun p => [.mod_Addr 31, .tbm_Set p.1 p.2]), true) := by
  induction regPairs with
  | nil => rfl
  | cons p rest ih =>
    cases p
    simp [tbmSetRegsLoop, tbmSetReg, ih]

theorem setTrims_cons (t : List Int) (px : pixelConfig) (rest : List pixelConfig) :
    setTrims t (px :: rest) = setTrims (t.set (trimIdx px) (px.trim : Int)) rest := rfl

theorem setTrims_length (pixels : List pixelConfig) :
    ∀ t : List Int, (setTrims t pixels).length = t.length := by
  induction pixels with
  | nil => intro t; rfl
  | cons px rest ih =>
    intro t
    rw [setTrims_cons, ih]
    simp

theorem setTrims_getElem?_untouched (pixels : List pixelConfig) :
    ∀ (t : List Int) (j : Nat), (∀ px ∈ pixels, trimIdx px ≠ j) →
      (setTrims t pixels)[j]? = t[j]? := by
  induction pixels with
  | nil => intro t j h; rfl
  | cons px rest ih =>
    intro t j h
    rw [setTrims_cons, ih _ j (fun q hq => h q (List.mem_cons_of_mem _ hq))]
    exact List.getElem?_set_ne (h px (List.mem_cons_self _ _))

theorem setTrims_getElem?_mem (pixels : List pixelConfig) :
    ∀ t : List Int, (pixels.map trimIdx).Nodup →
      (∀ px ∈ pixels, trimIdx px < t.length) →
      ∀ px ∈ pixels, (setTrims t pixels)[trimIdx px]? = some (px.trim : Int) := by
  induction pixels with
  | nil =>
    intro t _ _ px h
    cases h
  | cons p rest ih =>
    intro t hnd hb px hmem
    have hnd2 : (trimIdx p :: rest.map trimIdx).Nodup := by simpa using hnd
    rw [setTrims_cons]
    rcases List.mem_cons.mp hmem with heq | hmem2
    · subst heq
      rw [setTrims_getElem?_untouched rest _ (trimIdx px) ?hne]
      · exact List.getElem?_set_self (hb px (List.mem_cons_self _ _))
      case hne =>
        intro q hq hcontra
        exact (List.nodup_cons.mp hnd2).1 (hcontra ▸ List.mem_map_of_mem trimIdx hq)
    · apply ih (t.set (trimIdx p) (p.trim : Int)) ?_ ?_ px hmem2
      · exact (List.nodup_cons.mp hnd2).2
      · intro q hq
        simpa using hb q (List.mem_cons_of_mem _ hq)

/-! ### Claims -/

/-- C1, counterexample: the address counter of `SetupPatternGenerator` is a
`uint8_t`, so with 257 entries the entry at index 256 is written to device
address 0 (= 256 mod 256), not to address 256 as the claim states. -/
theorem C1_counterexample :
    (SetupPatternGenerator (List.replicate 257 (0, 0)))[256]? =
        some (.Pg_SetCmd 0 0) ∧
    ¬ (SetupPatternGenerator (List.replicate 257 (0, 0)))[256]? =
        some (.Pg_SetCmd 256 0) := by
  have h := pgLoop_getElem? (List.replicate 257 (0, 0)) 0 256 0 0 (by norm_num)
    (List.getElem?_replicate_of_lt (by norm_num))
  rw [SetupPatternGenerator] at *
  rw [h]
  norm_num

/-- C1 (amended): `SetupPatternGenerator` writes the k-th entry (0-based) of
`pg_setup` to device address `k % 256` — the 8-bit address counter wraps, so
for the first 256 entries this is address `k` exactly — and the command word
written is the bitwise OR of the 16-bit pattern and the 8-bit delay. -/
theorem C1_pg_entries_amended (pg_setup : List (Nat × Nat)) (k pat del : Nat)
    (hpat : pat < 65536) (hdel : del < 256)
    (hk : pg_setup[k]? = some (pat, del)) :
    (SetupPatternGenerator pg_setup)[k]? =
      some (.Pg_SetCmd (k % 256) (pat ||| del)) := by
  have h := pgLoop_getElem? pg_setup 0 k pat del (by norm_num) hk
  have hor : pat ||| del < 65536 := by
    have h2 : pat ||| del < 2 ^ 16 :=
      Nat.or_lt_two_pow (by norm_num; omega) (by norm_num; omega)
    omega
  rw [SetupPatternGenerator, h, Nat.mod_eq_of_lt hor]
  norm_num

/-- C1, witness of the amended claim at a concrete program. -/
theorem C1_witness :
    (256 : Nat) < 65536 ∧ (5 : Nat) < 256 ∧
    ([((256 : Nat), (5 : Nat))])[0]? = some (256, 5) ∧
    (SetupPatternGenerator [(256, 5)])[0]? = some (.Pg_SetCmd (0 % 256) (256 ||| 5)) :=
  ⟨by norm_num, by norm_num, rfl,
    C1_pg_entries_amended [(256, 5)] 0 256 5 (by norm_num) (by norm_num) rfl⟩

/-- C7: `SetupPatternGenerator` issues exactly one `Pg_SetCmd` per provided
entry and nothing else, and every written address is strictly below
`pg_setup.size()`; hence no terminating entry is written after the provided
ones and every device address at or beyond `pg_setup.size()` is left
unchanged. -/
theorem C7_pg_frame (pg_setup : List (Nat × Nat)) :
    (SetupPatternGenerator pg_setup).length = pg_setup.length ∧
    ∀ e ∈ SetupPatternGenerator pg_setup,
      ∃ a c, e = .Pg_SetCmd a c ∧ a < pg_setup.length := by
  refine ⟨pgLoop_length 0 pg_setup, ?_⟩
  intro e he
  obtain ⟨k, hk⟩ := List.mem_iff_getElem?.mp he
  have hklen : k < pg_setup.length := by
    obtain ⟨hlt, -⟩ := List.getElem?_eq_some_iff.mp hk
    rwa [SetupPatternGenerator, pgLoop_length] at hlt
  obtain ⟨⟨pat, del⟩, hpd⟩ : ∃ p, pg_setup[k]? = some p :=
    ⟨pg_setup[k], List.getElem?_eq_getElem hklen⟩
  have h := pgLoop_getElem? pg_setup 0 k pat del (by norm_num) hpd
  rw [SetupPatternGenerator] at hk
  rw [hk] at h
  refine ⟨(0 + k) % 256, (pat ||| del) % 65536, Option.some.inj h, ?_⟩
  calc (0 + k) % 256 ≤ 0 + k := Nat.mod_le _ _
    _ < pg_setup.length := by omega

/-- C7, witness at a concrete one-entry program. -/
theorem C7_witness :
    (SetupPatternGenerator [(1, 2)]).length = 1 ∧
    ∃ a c, TBCall.Pg_SetCmd 0 3 = .Pg_SetCmd a c ∧ a < 1 :=
  ⟨(C7_pg_frame [(1, 2)]).1,
    (C7_pg_frame [(1, 2)]).2 (.Pg_SetCmd 0 3) (by decide)⟩

/-- C10: `GetHashForString` always returns a value strictly below 86969 (its
final reduction modulo 86969), the hash of the empty string is 31, the hash
of the empty string vector is 0, and every intermediate loop value stays
below `2^32` (the `uint32_t` arithmetic wraps). -/
theorem C10_hash_bounds (s : List Nat) :
    GetHashForString s < 86969 ∧
    GetHashForString [] = 31 ∧
    GetHashForStringVector [] = 0 ∧
    ∀ h b : Nat, hashStep h b < 4294967296 := by
  refine ⟨?_, by decide, rfl, ?_⟩
  · show (s.foldl hashStep 31) % 86969 < 86969
    exact Nat.mod_lt _ (by norm_num)
  · intro h b
    have h1 : h * 54059 % 4294967296 < 4294967296 := Nat.mod_lt _ (by norm_num)
    have h2 : ((charVal b * 76963) % 4294967296).toNat < 4294967296 := by
      have hpos : (0 : Int) < 4294967296 := by norm_num
      have := Int.emod_lt_of_pos (charVal b * 76963) hpos
      omega
    have hx : (h * 54059 % 4294967296) ^^^
        ((charVal b * 76963) % 4294967296).toNat < 2 ^ 32 :=
      Nat.xor_lt_two_pow (by norm_num; omega) (by norm_num; omega)
    show (h * 54059 % 4294967296) ^^^
        ((charVal b * 76963) % 4294967296).toNat < 4294967296
    omega

/-- C3: for a DAC map (represented by its key-sorted pair list, the iteration
order of a `std::map`), `rocSetDACs` issues for each pair — in ascending key
order — `roc_I2cAddr(rocId)` followed by `roc_SetDAC(key, value)`, and then
flushes the queued commands to the testboard before returning. -/
theorem C3_rocSetDACs_trace (rocId : Nat) (dacPairs : List (Nat × Nat))
    (hmap : dacPairs.Chain' (fun p q => p.1 < q.1)) :
    (rocSetDACs rocId dacPairs).1 =
      dacPairs.flatMap (fun p => [.roc_I2cAddr rocId, .roc_SetDAC p.1 p.2]) ++
        [.Flush] ∧
    (rocSetDACs rocId dacPairs).2 = true ∧
    (dacPairs.map Prod.fst).Chain' (· < ·) := by
  refine ⟨?_, ?_, ?_⟩
  · simp [rocSetDACs, rocSetDACsLoop_spec]
  · simp [rocSetDACs, rocSetDACsLoop_spec]
  · exact List.chain'_map_of_chain' Prod.fst (fun a b h => h) hmap

/-- C3, witness at a concrete two-entry DAC map. -/
theorem C3_witness :
    ([((1 : Nat), (10 : Nat)), (3, 4)]).Chain' (fun p q => p.1 < q.1) ∧
    ((rocSetDACs 2 [(1, 10), (3, 4)]).1 =
      [(1, 10), (3, 4)].flatMap
          (fun p => [TBCall.roc_I2cAddr 2, .roc_SetDAC p.1 p.2]) ++ [.Flush] ∧
      (rocSetDACs 2 [(1, 10), (3, 4)]).2 = true ∧
      ([((1 : Nat), (10 : Nat)), (3, 4)].map Prod.fst).Chain' (· < ·)) :=
  ⟨by norm_num [List.chain'_cons],
    C3_rocSetDACs_trace 2 [(1, 10), (3, 4)] (by norm_num [List.chain'_cons])⟩

/-- C8: `rocSetDACs` and `tbmSetRegs` return `true` for every input map —
their early-abort branch returning `false` is unreachable because the
per-item helpers `rocSetDAC` and `tbmSetReg` return `true` unconditionally. -/
theorem C8_setters_return_true (rocId tbmId : Nat)
    (dacPairs regPairs : List (Nat × Nat)) :
    (rocSetDACs rocId dacPairs).2 = true ∧ (tbmSetRegs tbmId regPairs).2 = true := by
  constructor
  · simp [rocSetDACs, rocSetDACsLoop_spec]
  · simp [tbmSetRegs, tbmSetRegsLoop_spec]

/-- C4: in the unmask branch of `RocSetMask`, the trim vector handed to
`TrimChip` has length `ROC_NUMCOLS * ROC_NUMROWS`, holds each listed pixel's
trim value at index `column * ROC_NUMROWS + row`, holds the default 15 at
every unaddressed index, and the trace enables every column via
`roc_Col_Enable` before the single `TrimChip` call. -/
theorem C4_RocSetMask_trim (rocid : Nat) (pixels : List pixelConfig)
    (hbounds : ∀ px ∈ pixels, px.column < ROC_NUMCOLS ∧ px.row < ROC_NUMROWS)
    (hnodup : (pixels.map trimIdx).Nodup) :
    (buildTrimVector pixels).length = ROC_NUMCOLS * ROC_NUMROWS ∧
    (∀ px ∈ pixels,
      (buildTrimVector pixels)[trimIdx px]? = some (px.trim : Int)) ∧
    (∀ j, j < ROC_NUMCOLS * ROC_NUMROWS → (∀ px ∈ pixels, trimIdx px ≠ j) →
      (buildTrimVector pixels)[j]? = some 15) ∧
    RocSetMask rocid false pixels =
      .roc_I2cAddr rocid ::
        ((List.range ROC_NUMCOLS).map (fun col => .roc_Col_Enable col true) ++
          [.TrimChip (buildTrimVector pixels)]) := by
  have hidx : ∀ px ∈ pixels, trimIdx px < ROC_NUMCOLS * ROC_NUMROWS := by
    intro px hm
    obtain ⟨hc, hr⟩ := hbounds px hm
    simp only [ROC_NUMCOLS, ROC_NUMROWS] at hc hr ⊢
    simp only [trimIdx, ROC_NUMROWS]
    omega
  refine ⟨?_, ?_, ?_, ?_⟩
  · rw [buildTrimVector, setTrims_length]
    simp
  · intro px hm
    exact setTrims_getElem?_mem pixels _ hnodup
      (fun q hq => by simpa using hidx q hq) px hm
  · intro j hj hun
    rw [buildTrimVector, setTrims_getElem?_untouched pixels _ j hun]
    exact List.getElem?_replicate_of_lt hj
  · rfl

/-- C4, witness at a concrete one-pixel configuration. -/
theorem C4_witness :
    (∀ px ∈ [pixelConfig.mk 1 2 7], px.column < ROC_NUMCOLS ∧ px.row < ROC_NUMROWS) ∧
    ([pixelConfig.mk 1 2 7].map trimIdx).Nodup ∧
    ((buildTrimVector [pixelConfig.mk 1 2 7]).length = ROC_NUMCOLS * ROC_NUMROWS ∧
      (∀ px ∈ [pixelConfig.mk 1 2 7],
        (buildTrimVector [pixelConfig.mk 1 2 7])[trimIdx px]? = some (px.trim : Int)) ∧
      (∀ j, j < ROC_NUMCOLS * ROC_NUMROWS →
        (∀ px ∈ [pixelConfig.mk 1 2 7], trimIdx px ≠ j) →
        (buildTrimVector [pixelConfig.mk 1 2 7])[j]? = some 15) ∧
      RocSetMask 3 false [pixelConfig.mk 1 2 7] =
        .roc_I2cAddr 3 ::
          ((List.range ROC_NUMCOLS).map (fun col => .roc_Col_Enable col true) ++
            [.TrimChip (buildTrimVector [pixelConfig.mk 1 2 7])])) :=
  ⟨by decide, by decide,
    C4_RocSetMask_trim 3 [pixelConfig.mk 1 2 7] (by decide) (by decide)⟩

/-- C2: for every parameter list of length at least 2 (written `flags ::
nTriggers :: rest`), `PixelCalibrateMap` returns exactly one inner vector
holding exactly one pixel sample whose column, row and owning chip id equal
the arguments, and whose value is the efficiency count `nReadouts` when the
flag word has `FLAG_INTERNAL_GET_EFFICIENCY` set and the pulse-height sum
`PHsum` otherwise. -/
theorem C2_PixelCalibrateMap_result (rocid column row : Nat)
    (flags nTriggers : Int) (rest : List Int) (nReadouts PHsum : Int) :
    ∃ p : pixel,
      PixelCalibrateMap rocid column row (flags :: nTriggers :: rest)
          nReadouts PHsum = some [[p]] ∧
      p.column = column ∧ p.row = row ∧ p.roc_id = rocid ∧
      p.value = if hasEffFlag flags then nReadouts else PHsum :=
  ⟨{ column := column, row := row, roc_id := rocid,
      value := if hasEffFlag flags then nReadouts else PHsum },
    rfl, rfl, rfl, rfl, rfl⟩

/-- C9: with a well-formed parameter list, `RocCalibrateMap` returns the
empty result (no inner vector) when the three device-returned vectors do not
all have the same length; otherwise it returns exactly one inner vector with
one pixel per `address` entry whose value comes from `nReadouts` when the
efficiency flag is set and from `PHsum` otherwise. -/
theorem C9_RocCalibrateMap_result (rocid : Nat) (flags nTriggers : Int)
    (rest : List Int) (nReadouts PHsum : List Int) (address : List Nat) :
    (¬ (nReadouts.length = address.length ∧ PHsum.length = address.length) →
      RocCalibrateMap rocid (flags :: nTriggers :: rest) nReadouts PHsum address =
        some []) ∧
    (nReadouts.length = address.length → PHsum.length = address.length →
      ∃ data : List (Nat × Int),
        RocCalibrateMap rocid (flags :: nTriggers :: rest) nReadouts PHsum address =
          some [data] ∧
        data.length = address.length ∧
        ∀ (i a : Nat) (v : Int), address[i]? = some a →
          (if hasEffFlag flags then nReadouts else PHsum)[i]? = some v →
          data[i]? = some (a, v)) := by
  constructor
  · intro hne
    have hcond : (address.length != nReadouts.length ||
        address.length != PHsum.length ||
        nReadouts.length != PHsum.length) = true := by
      simp only [Bool.or_eq_true, bne_iff_ne, ne_eq]
      omega
    show (if (address.length != nReadouts.length || address.length != PHsum.length ||
        nReadouts.length != PHsum.length) = true then some [] else
        some [address.zip (if hasEffFlag flags then nReadouts else PHsum)]) = some []
    rw [if_pos hcond]
  · intro hn hp
    have hcond : (address.length != nReadouts.length ||
        address.length != PHsum.length ||
        nReadouts.length != PHsum.length) = false := by
      simp only [Bool.or_eq_false_iff, bne_eq_false_iff_eq]
      omega
    refine ⟨address.zip (if hasEffFlag flags then nReadouts else PHsum), ?_, ?_, ?_⟩
    · show (if (address.length != nReadouts.length ||
          address.length != PHsum.length ||
          nReadouts.length != PHsum.length) = true then some [] else
          some [address.zip (if hasEffFlag flags then nReadouts else PHsum)]) =
          some [address.zip (if hasEffFlag flags then nReadouts else PHsum)]
      rw [hcond]
      simp
    · rw [List.length_zip]
      cases hEff : hasEffFlag flags <;> simp <;> omega
    · intro i a v ha hv
      exact List.getElem?_zip_eq_some.mpr ⟨ha, hv⟩

/-- C9, witness: a length mismatch yields the empty result, and matching
lengths yield one pixel per address entry. -/
theorem C9_witness :
    RocCalibrateMap 0 (0 :: 1 :: []) [6] [7] [5, 9] = some [] ∧
    ∃ data : List (Nat × Int),
      RocCalibrateMap 0 (0 :: 1 :: []) [6] [7] [5] = some [data] ∧
      data.length = ([(5 : Nat)]).length ∧
      ∀ (i a : Nat) (v : Int), ([(5 : Nat)])[i]? = some a →
        (if hasEffFlag 0 then [(6 : Int)] else [(7 : Int)])[i]? = some v →
        data[i]? = some (a, v) :=
  ⟨(C9_RocCalibrateMap_result 0 0 1 [] [6] [7] [5, 9]).1 (by simp),
    (C9_RocCalibrateMap_result 0 0 1 [] [6] [7] [5]).2 rfl rfl⟩

/-- C5: `daqRead` queries the channel 0 buffer size, issues a `Daq_Read` for
exactly that many words on channel 0, and when `nTBMs > 0` also queries and
reads channel 1; the ferried-back data is exactly the channel 0 words
followed by the channel 1 words (only the channel 0 words when `nTBMs` is
0). -/
theorem C5_daqRead_data (tb : DaqDevice) (nTBMs : Nat) :
    (daqRead tb nTBMs).1 =
      [TBCall.Daq_GetSize 0] ++
        (if 0 < nTBMs then [TBCall.Daq_GetSize 1] else []) ++
        [TBCall.Daq_Read 0 (tb.Daq_GetSize 0)] ++
        (if 0 < nTBMs then [TBCall.Daq_Read 1 (tb.Daq_GetSize 1)] else []) ∧
    (daqRead tb nTBMs).2 =
      tb.Daq_Read 0 (tb.Daq_GetSize 0) ++
        (if 0 < nTBMs then tb.Daq_Read 1 (tb.Daq_GetSize 1) else []) := by
  by_cases h : 0 < nTBMs <;> simp [daqRead, h]

/-- C6: the HAL scales voltages by 1000 and currents by 10000 at its
boundary, truncating to `uint16_t` on the way out and dividing by the same
factor on the way back; hence whenever `V * 1000` (resp. `I * 10000`) is a
non-negative integer below `2^16` and the device echoes the written value,
the get-call after the set-call returns exactly the value that was set. -/
theorem C6_voltage_current_scaling (V I : ℚ) (n m : Nat)
    (hV : V * 1000 = (n : ℚ)) (hn : n < 65536)
    (hI : I * 10000 = (m : ℚ)) (hm : m < 65536) :
    setTBva V = n ∧ getTBva (setTBva V) = V ∧
    setTBvd V = n ∧ getTBvd (setTBvd V) = V ∧
    setTBia I = m ∧ getTBia (setTBia I) = I ∧
    setTBid I = m ∧ getTBid (setTBid I) = I := by
  have hva : setTBva V = n := by
    rw [setTBva, truncUInt16, hV, Int.floor_natCast]
    simp [Nat.mod_eq_of_lt hn]
  have hvd : setTBvd V = n := by
    rw [setTBvd, truncUInt16, hV, Int.floor_natCast]
    simp [Nat.mod_eq_of_lt hn]
  have hia : setTBia I = m := by
    rw [setTBia, truncUInt16, hI, Int.floor_natCast]
    simp [Nat.mod_eq_of_lt hm]
  have hid : setTBid I = m := by
    rw [setTBid, truncUInt16, hI, Int.floor_natCast]
    simp [Nat.mod_eq_of_lt hm]
  refine ⟨hva, ?_, hvd, ?_, hia, ?_, hid, ?_⟩
  · rw [hva, getTBva, ← hV]
    field_simp
  · rw [hvd, getTBvd, ← hV]
    field_simp
  · rw [hia, getTBia, ← hI]
    field_simp
  · rw [hid, getTBid, ← hI]
    field_simp

/-- C6, witness at `V = 3/2` volts and `I = 1/4` amperes. -/
theorem C6_witness :
    (3 : ℚ) / 2 * 1000 = ((1500 : Nat) : ℚ) ∧ (1500 : Nat) < 65536 ∧
    (1 : ℚ) / 4 * 10000 = ((2500 : Nat) : ℚ) ∧ (2500 : Nat) < 65536 ∧
    (setTBva (3 / 2) = 1500 ∧ getTBva (setTBva (3 / 2)) = 3 / 2 ∧
      setTBvd (3 / 2) = 1500 ∧ getTBvd (setTBvd (3 / 2)) = 3 / 2 ∧
      setTBia (1 / 4) = 2500 ∧ getTBia (setTBia (1 / 4)) = 1 / 4 ∧
      setTBid (1 / 4) = 2500 ∧ getTBid (setTBid (1 / 4)) = 1 / 4) :=
  ⟨by norm_num, by norm_num, by norm_num, by norm_num,
    C6_voltage_current_scaling (3 / 2) (1 / 4) 1500 2500
      (by norm_num) (by norm_num) (by norm_num) (by norm_num)⟩

end Pxar
